import Mathlib

/-!
Shallow embedding of the currency / certificate-validity core of the
`boxstack/pilot_log` personal flight-logbook application
(`src/logbook/models.py`, `src/logbook/views/utils.py`, `src/logbook/admin.py`),
together with proofs settling the specification claims about it.

Dates are modelled as proleptic-Gregorian calendar dates, because the code
mixes calendar-month arithmetic (`dateutil.relativedelta(months=3)`) with
day-difference arithmetic (`(valid_until - today).days`), and the two do not
coincide.  Python `date` comparison is lexicographic on (year, month, day).
-/

/-- Calendar date, year/month/day, mirroring Python `datetime.date`. -/
structure Date where
  year : Nat
  month : Nat
  day : Nat
deriving DecidableEq, Repr

/-- Python `date` ordering: lexicographic on (year, month, day). -/
def dateLe (a b : Date) : Bool :=
  decide (a.year < b.year) ||
    (decide (a.year = b.year) &&
      (decide (a.month < b.month) ||
        (decide (a.month = b.month) && decide (a.day ≤ b.day))))

/-- Strict version of `dateLe`. -/
def dateLt (a b : Date) : Bool :=
  decide (a.year < b.year) ||
    (decide (a.year = b.year) &&
      (decide (a.month < b.month) ||
        (decide (a.month = b.month) && decide (a.day < b.day))))

theorem dateLe_total (a b : Date) : dateLe a b = true ∨ dateLe b a = true := by
  simp only [dateLe, Bool.or_eq_true, Bool.and_eq_true, decide_eq_true_eq]
  omega

theorem not_dateLe_iff_dateLt (a b : Date) : dateLe a b = false ↔ dateLt b a = true := by
  simp only [dateLe, dateLt, Bool.or_eq_false_iff, Bool.and_eq_false_iff,
    Bool.or_eq_true, Bool.and_eq_true, decide_eq_true_eq, decide_eq_false_iff_not]
  omega

theorem dateLe_trans {a b c : Date} (h1 : dateLe a b = true) (h2 : dateLe b c = true) :
    dateLe a c = true := by
  simp only [dateLe, Bool.or_eq_true, Bool.and_eq_true, decide_eq_true_eq] at *
  omega

/-- Gregorian leap-year rule (`calendar.isleap`). -/
def isLeap (y : Nat) : Bool :=
  (y % 4 == 0 && y % 100 != 0) || y % 400 == 0

/-- Number of days in month `m` of year `y` (months numbered 1–12). -/
def daysInMonth (y m : Nat) : Nat :=
  if m = 2 then (if isLeap y then 29 else 28)
  else if m = 4 ∨ m = 6 ∨ m = 9 ∨ m = 11 then 30
  else 31

/-- Days in year `y` strictly before month `m`. -/
def daysBeforeMonth (y m : Nat) : Nat :=
  (List.range (m - 1)).foldl (fun acc i => acc + daysInMonth y (i + 1)) 0

/-- Proleptic Gregorian ordinal of a date (`datetime.date.toordinal`:
0001-01-01 has ordinal 1).  Day differences of Python dates are differences
of these ordinals. -/
def toOrdinal (d : Date) : Nat :=
  365 * (d.year - 1) + (d.year - 1) / 4 - (d.year - 1) / 100 + (d.year - 1) / 400 +
    daysBeforeMonth d.year d.month + d.day

/-- Calendar-month addition with day clamping, the semantics of
`dateutil.relativedelta(months := n)` applied to a date: add `n` months
(carrying into the year) and clamp the day to the end of the target month. -/
def addMonths (d : Date) (n : Nat) : Date :=
  let m0 := d.month - 1 + n
  let y := d.year + m0 / 12
  let m := m0 % 12 + 1
  ⟨y, m, min d.day (daysInMonth y m)⟩

/-- Certificate record, the fields of `logbook.models.Certificate` consumed by
the core (`id` is the Django primary key; `supersedes` stores the foreign key
`supersedes_id`, i.e. the id of the certificate this one supersedes). -/
structure Certificate where
  id : Nat
  name : String
  issue_date : Date
  valid_until : Option Date
  supersedes : Option Nat
deriving DecidableEq, Repr

/-- Reverse foreign-key accessor `certificate.supersedes_set`: all certificates
in the snapshot whose `supersedes` points at `c`. -/
def supersedes_set (c : Certificate) (certs : List Certificate) : List Certificate :=
  certs.filter (fun x => x.supersedes = some c.id)

/-- The property `Certificate.valid` (models.py lines 218–222), with the
wall-clock date `datetime.now(tz=UTC).date()` made an explicit `today`
parameter:
`(valid_until is None or valid_until >= today) and not supersedes_set.count()`. -/
def Certificate.valid (c : Certificate) (certs : List Certificate) (today : Date) : Bool :=
  (match c.valid_until with
    | none => true
    | some vu => dateLe today vu) &&
  (supersedes_set c certs).length = 0

/-- Row-level declarative constraints of `Certificate.Meta.constraints`
(models.py lines 197–212): `validity_after_issue` and `supersedes_self`.
The third constraint (`supersedes_unique`) is a table-level uniqueness
condition, stated in `certificateStoreOk`. -/
def certificateRowOk (c : Certificate) : Prop :=
  (c.valid_until = none ∨ ∃ vu, c.valid_until = some vu ∧ dateLt c.issue_date vu = true) ∧
  c.supersedes ≠ some c.id

instance (c : Certificate) : Decidable (certificateRowOk c) := by
  unfold certificateRowOk
  exact inferInstance

/-- Store-level invariant for a certificate snapshot: primary keys are unique,
each row passes its check constraints, and `supersedes_unique` holds (no two
rows share a non-null `supersedes` target). -/
def certificateStoreOk (certs : List Certificate) : Prop :=
  certs.Pairwise (fun a b => a.id ≠ b.id) ∧
  (∀ c ∈ certs, certificateRowOk c) ∧
  certs.Pairwise (fun a b => a.supersedes = none ∨ a.supersedes ≠ b.supersedes)

instance (certs : List Certificate) : Decidable (certificateStoreOk certs) := by
  unfold certificateStoreOk
  exact inferInstance

/-- Lexicographic strict order on character lists, the text collation used
for sort key step 1 of `Certificate.Meta.ordering` (`"name"` ascending). -/
def strLtB : List Char → List Char → Bool
  | [], [] => false
  | [], _ :: _ => true
  | _ :: _, [] => false
  | a :: as, b :: bs => decide (a < b) || (decide (a = b) && strLtB as bs)

/-- Sort key step 2 of `Certificate.Meta.ordering`:
`F("supersedes").desc(nulls_last=True)` — larger foreign-key values first,
nulls after all non-null values.  Only invoked on distinct values. -/
def supersedesDescLt : Option Nat → Option Nat → Bool
  | some a, some b => decide (b < a)
  | some _, none => true
  | none, some _ => false
  | none, none => false

/-- Sort key step 3 of `Certificate.Meta.ordering`: `"-valid_until"` —
later dates first (nulls cannot reach the notifier's sort, since its filter
requires `valid_until` to be present; they are placed last). -/
def validUntilDescLe : Option Date → Option Date → Bool
  | some a, some b => dateLe b a
  | some _, none => true
  | none, some _ => false
  | none, none => true

/-- The default queryset ordering of certificates,
`Certificate.Meta.ordering = ("name", F("supersedes").desc(nulls_last=True), "-valid_until")`
(models.py line 213), as a total Boolean order. -/
def certLe (a b : Certificate) : Bool :=
  if a.name = b.name then
    if a.supersedes = b.supersedes then validUntilDescLe a.valid_until b.valid_until
    else supersedesDescLt a.supersedes b.supersedes
  else strLtB a.name.data b.name.data

/-- Ordering relation underlying `certLe`, for use with `List.insertionSort`. -/
def certR (a b : Certificate) : Prop := certLe a b = true

instance : DecidableRel certR := fun a b => by
  unfold certR
  exact inferInstance

/-- Certificates in default queryset order. -/
def sortCerts (certs : List Certificate) : List Certificate :=
  List.insertionSort certR certs

theorem strLtB_irrefl (as : List Char) : strLtB as as = false := by
  induction as with
  | nil => rfl
  | cons a as ih => simp [strLtB, ih]

theorem strLtB_trichotomy (as bs : List Char) :
    as = bs ∨ strLtB as bs = true ∨ strLtB bs as = true := by
  induction as generalizing bs with
  | nil =>
    cases bs with
    | nil => exact Or.inl rfl
    | cons b bs => exact Or.inr (Or.inl rfl)
  | cons a as ih =>
    cases bs with
    | nil => exact Or.inr (Or.inr rfl)
    | cons b bs =>
      rcases lt_trichotomy a b with h | h | h
      · exact Or.inr (Or.inl (by simp [strLtB, h]))
      · subst h
        rcases ih bs with h2 | h2 | h2
        · exact Or.inl (by rw [h2])
        · exact Or.inr (Or.inl (by simp [strLtB, h2]))
        · exact Or.inr (Or.inr (by simp [strLtB, h2]))
      · exact Or.inr (Or.inr (by simp [strLtB, h]))

theorem strLtB_trans {as bs cs : List Char} (h1 : strLtB as bs = true)
    (h2 : strLtB bs cs = true) : strLtB as cs = true := by
  induction as generalizing bs cs with
  | nil =>
    cases bs with
    | nil => exact absurd h1 (by simp [strLtB])
    | cons b bs =>
      cases cs with
      | nil => exact absurd h2 (by simp [strLtB])
      | cons c cs => rfl
  | cons a as ih =>
    cases bs with
    | nil => exact absurd h1 (by simp [strLtB])
    | cons b bs =>
      cases cs with
      | nil => exact absurd h2 (by simp [strLtB])
      | cons c cs =>
        simp only [strLtB, Bool.or_eq_true, Bool.and_eq_true, decide_eq_true_eq] at h1 h2 ⊢
        rcases h1 with h1 | ⟨hab, h1⟩
        · rcases h2 with h2 | ⟨hbc, h2⟩
          · exact Or.inl (lt_trans h1 h2)
          · exact Or.inl (hbc ▸ h1)
        · subst hab
          rcases h2 with h2 | ⟨hbc, h2⟩
          · exact Or.inl h2
          · exact Or.inr ⟨hbc, ih h1 h2⟩

theorem strLtB_asymm {as bs : List Char} (h : strLtB as bs = true) :
    strLtB bs as = false := by
  cases hq : strLtB bs as
  · rfl
  · have := strLtB_trans h hq
    rw [strLtB_irrefl] at this
    exact absurd this (by simp)

theorem validUntilDescLe_total (x y : Option Date) :
    validUntilDescLe x y = true ∨ validUntilDescLe y x = true := by
  cases x with
  | none =>
    cases y with
    | none => exact Or.inl rfl
    | some b => exact Or.inr rfl
  | some a =>
    cases y with
    | none => exact Or.inl rfl
    | some b =>
      rcases dateLe_total a b with h | h
      · exact Or.inr h
      · exact Or.inl h

theorem validUntilDescLe_trans {x y z : Option Date}
    (h1 : validUntilDescLe x y = true) (h2 : validUntilDescLe y z = true) :
    validUntilDescLe x z = true := by
  cases x with
  | none =>
    cases y with
    | none =>
      cases z with
      | none => rfl
      | some c => exact absurd h2 (by simp [validUntilDescLe])
    | some b => exact absurd h1 (by simp [validUntilDescLe])
  | some a =>
    cases z with
    | none => rfl
    | some c =>
      cases y with
      | none => exact absurd h2 (by simp [validUntilDescLe])
      | some b => exact dateLe_trans h2 h1

theorem supersedesDescLt_total {x y : Option Nat} (h : x ≠ y) :
    supersedesDescLt x y = true ∨ supersedesDescLt y x = true := by
  cases x with
  | none =>
    cases y with
    | none => exact absurd rfl h
    | some b => exact Or.inr rfl
  | some a =>
    cases y with
    | none => exact Or.inl rfl
    | some b =>
      have hab : a ≠ b := fun he => h (by rw [he])
      rcases Nat.lt_or_ge a b with hl | hg
      · exact Or.inr (by simp [supersedesDescLt, hl])
      · have : b < a := lt_of_le_of_ne hg (fun he => hab he.symm)
        exact Or.inl (by simp [supersedesDescLt, this])

theorem supersedesDescLt_trans {x y z : Option Nat}
    (h1 : supersedesDescLt x y = true) (h2 : supersedesDescLt y z = true) :
    supersedesDescLt x z = true := by
  cases x with
  | none =>
    cases y with
    | none => exact absurd h1 (by simp [supersedesDescLt])
    | some b => exact absurd h1 (by simp [supersedesDescLt])
  | some a =>
    cases z with
    | none => rfl
    | some c =>
      cases y with
      | none => exact absurd h2 (by simp [supersedesDescLt])
      | some b =>
        simp only [supersedesDescLt, decide_eq_true_eq] at h1 h2 ⊢
        exact lt_trans h2 h1

theorem supersedesDescLt_asymm {x y : Option Nat}
    (h : supersedesDescLt x y = true) : supersedesDescLt y x = false := by
  cases x with
  | none =>
    cases y with
    | none => exact absurd h (by simp [supersedesDescLt])
    | some b => exact absurd h (by simp [supersedesDescLt])
  | some a =>
    cases y with
    | none => rfl
    | some b =>
      simp only [supersedesDescLt, decide_eq_true_eq] at h
      simp only [supersedesDescLt, decide_eq_false_iff_not]
      omega

theorem string_data_ne {s t : String} (h : s ≠ t) : s.data ≠ t.data := by
  intro hd
  exact h (by cases s; cases t; exact congrArg String.mk hd)

instance : IsTotal Certificate certR := by
  constructor
  intro a b
  unfold certR certLe
  by_cases hn : a.name = b.name
  · rw [if_pos hn, if_pos hn.symm]
    by_cases hs : a.supersedes = b.supersedes
    · rw [if_pos hs, if_pos hs.symm]
      exact validUntilDescLe_total _ _
    · rw [if_neg hs, if_neg (fun h => hs h.symm)]
      exact supersedesDescLt_total hs
  · rw [if_neg hn, if_neg (fun h => hn h.symm)]
    rcases strLtB_trichotomy a.name.data b.name.data with h | h | h
    · exact absurd h (string_data_ne hn)
    · exact Or.inl h
    · exact Or.inr h

instance : IsTrans Certificate certR := by
  constructor
  intro a b c h1 h2
  unfold certR certLe at *
  by_cases hab : a.name = b.name
  · by_cases hbc : b.name = c.name
    · have hac : a.name = c.name := hab.trans hbc
      rw [if_pos hab] at h1
      rw [if_pos hbc] at h2
      rw [if_pos hac]
      by_cases hsab : a.supersedes = b.supersedes
      · by_cases hsbc : b.supersedes = c.supersedes
        · rw [if_pos hsab] at h1
          rw [if_pos hsbc] at h2
          rw [if_pos (hsab.trans hsbc)]
          exact validUntilDescLe_trans h1 h2
        · rw [if_neg hsbc] at h2
          rw [if_neg (hsab ▸ hsbc), hsab]
          exact h2
      · by_cases hsbc : b.supersedes = c.supersedes
        · rw [if_neg hsab] at h1
          rw [if_neg (fun h => hsab (h.trans hsbc.symm)), ← hsbc]
          exact h1
        · rw [if_neg hsab] at h1
          rw [if_neg hsbc] at h2
          by_cases hsac : a.supersedes = c.supersedes
          · rw [hsac] at h1
            have := supersedesDescLt_asymm h2
            rw [h1] at this
            exact absurd this (by simp)
          · rw [if_neg hsac]
            exact supersedesDescLt_trans h1 h2
    · have hac : a.name ≠ c.name := fun h => hbc (hab.symm.trans h)
      rw [if_neg hbc] at h2
      rw [if_neg hac]
      have : a.name.data = b.name.data := by rw [hab]
      rw [this]
      exact h2
  · by_cases hbc : b.name = c.name
    · have hac : a.name ≠ c.name := fun h => hab (h.trans hbc.symm)
      rw [if_neg hab] at h1
      rw [if_neg hac]
      have : b.name.data = c.name.data := by rw [hbc]
      rw [← this]
      exact h1
    · rw [if_neg hab] at h1
      rw [if_neg hbc] at h2
      by_cases hac : a.name = c.name
      · have : c.name.data = a.name.data := by rw [hac]
        rw [this] at h2
        have := strLtB_asymm h1
        rw [h2] at this
        exact absurd this (by simp)
      · rw [if_neg hac]
        exact strLtB_trans h1 h2

/-- Severity of a Django `messages` call in `check_certificates_expiry`:
`messages.error` or `messages.warning`. -/
inductive Severity where
  | error
  | warning
deriving DecidableEq, Repr

/-- Semantic content of one message emitted by `check_certificates_expiry`:
the certificate it is about, the severity, and the date payload of the
message text — the expiry date for the error message
(`"... has expired on {valid_until}!"`), the remaining day count for the
warning message (`"... expires in {(valid_until - today).days} days!"`). -/
structure Notice where
  cert : Certificate
  severity : Severity
  expiredOn : Option Date
  daysLeft : Option Int
deriving DecidableEq, Repr

/-- The module-level constant `EXPIRY_WARNING_THRESHOLD = relativedelta(months=3)`
of `views/utils.py` (line 12), as the number of calendar months it adds. -/
def EXPIRY_WARNING_THRESHOLD_MONTHS : Nat := 3

/-- Membership test of the queryset
`Certificate.objects.filter(valid_until__lte=today + EXPIRY_WARNING_THRESHOLD, supersedes_set=None)`
(views/utils.py lines 17–20).  SQL `NULL` never satisfies `__lte`, so rows
with absent `valid_until` are excluded; `supersedes_set=None` keeps exactly
the rows no other row's `supersedes` points at. -/
def expiryEligible (today : Date) (certs : List Certificate) (c : Certificate) : Bool :=
  (match c.valid_until with
    | none => false
    | some vu => dateLe vu (addMonths today EXPIRY_WARNING_THRESHOLD_MONTHS)) &&
  (supersedes_set c certs).isEmpty

/-- Body of the loop of `check_certificates_expiry` (views/utils.py lines
22–37): an error message when `certificate.valid` is false, a warning message
otherwise.  The notifier only reaches this on certificates passing
`expiryEligible`, so `valid_until` is present; the fallback date is inert. -/
def noticeOf (certs : List Certificate) (today : Date) (c : Certificate) : Notice :=
  if c.valid certs today = true then
    { cert := c, severity := .warning, expiredOn := none,
      daysLeft := some ((toOrdinal (c.valid_until.getD c.issue_date) : Int) - toOrdinal today) }
  else
    { cert := c, severity := .error, expiredOn := c.valid_until, daysLeft := none }

/-- The notifier `check_certificates_expiry` (views/utils.py lines 15–37),
with `today` (read from the wall clock in the code) as an explicit parameter:
filter the snapshot by the expiry queryset, iterate it in the default
queryset order (`Certificate.Meta.ordering`), and emit one message per
certificate. -/
def check_certificates_expiry (certs : List Certificate) (today : Date) : List Notice :=
  (sortCerts (certs.filter (expiryEligible today certs))).map (noticeOf certs today)

/-- The property `Certificate.superseded_by` (models.py lines 224–226):
`self.supersedes_set.first()`, the first element of the reverse-relation
queryset under the default queryset ordering (`supersedes_unique` makes the
set at most a singleton in constraint-respecting data). -/
def superseded_by (c : Certificate) (certs : List Certificate) : Option Certificate :=
  (sortCerts (supersedes_set c certs)).head?

/-- Error raised by the Certificate Validity Resolver on a data-integrity
violation. -/
inductive ResolveError where
  | integrityError
deriving DecidableEq, Repr

/-- Modelled from the spec: the active-chain-head traversal of the
Certificate Validity Resolver (spec §4.2) is not present under `src/` —
`models.py` only defines the single-step `superseded_by` link — so the
traversal is modelled from the spec's words: follow `superseded_by` links
forward, bounded by the total certificate count, failing with an integrity
error when the bound is exhausted (a cycle) instead of looping forever. -/
def chainHeadAux (certs : List Certificate) : Nat → Certificate → Except ResolveError Certificate
  | 0, _ => .error .integrityError
  | fuel + 1, c =>
    match superseded_by c certs with
    | none => .ok c
    | some c' => chainHeadAux certs fuel c'

/-- Modelled from the spec: resolving the active chain head of a certificate,
with the step budget set to the total certificate count (spec §4.2, §8). -/
def resolveChainHead (certs : List Certificate) (c : Certificate) : Except ResolveError Certificate :=
  chainHeadAux certs certs.length c

/-- Iterated `superseded_by`: the certificate reached after `n` forward
steps from `c`, or `none` when the chain ends earlier. -/
def iterSuperseded (certs : List Certificate) : Nat → Certificate → Option Certificate
  | 0, c => some c
  | n + 1, c => (superseded_by c certs).bind (iterSuperseded certs n)

/-- The computed `CertificateStatus` value of the spec's Resolver (§3). -/
structure CertificateStatus where
  valid : Bool
  supersededByActiveChainHead : Option Nat
  daysUntilExpiry : Option Int
deriving DecidableEq, Repr

/-- Modelled from the spec: the Resolver's input validation (spec §4.2, §7) —
self-supersession (`supersedesId == id`) is rejected with an integrity error
at input validation time, before any status is computed; in `src/` this
invariant exists only as the storage-layer check constraint `supersedes_self`
(models.py lines 203–206). -/
def resolve (c : Certificate) (certs : List Certificate) (today : Date) :
    Except ResolveError CertificateStatus :=
  if c.supersedes = some c.id then .error .integrityError
  else
    .ok { valid := c.valid certs today
          supersededByActiveChainHead :=
            match superseded_by c certs with
            | none => none
            | some _ =>
              match resolveChainHead certs c with
              | .ok h => some h.id
              | .error _ => none
          daysUntilExpiry :=
            match c.valid_until, (supersedes_set c certs).isEmpty with
            | some vu, true => some ((toOrdinal vu : Int) - toOrdinal today)
            | _, _ => none }

/-- Flight role of a log entry (`logbook.models.FunctionType`). -/
inductive FunctionType where
  | PIC
  | DUAL
deriving DecidableEq, Repr

/-- Flight log entry, the fields of `logbook.models.LogEntry` consumed by the
core and its declared constraints (`id` is the Django primary key; times are
instants, mirroring `DateTimeField` as a totally ordered timestamp). -/
structure LogEntry where
  id : Nat
  aircraft : Nat
  departure_time : Int
  arrival_time : Int
  landings : Nat
  time_function : FunctionType
  pilot : Nat
  copilot : Option Nat
  cross_country : Bool
deriving DecidableEq, Repr

/-- Row-level constraints of `LogEntry.Meta.constraints` (models.py lines
142–152): `arrival_after_departure`, `copilot_not_pilot`, `no_pic_no_xc`. -/
def logEntryRowOk (e : LogEntry) : Prop :=
  e.departure_time < e.arrival_time ∧
  e.copilot ≠ some e.pilot ∧
  (e.time_function = .PIC ∨ e.cross_country = false)

instance (e : LogEntry) : Decidable (logEntryRowOk e) := by
  unfold logEntryRowOk
  exact inferInstance

/-- Store-level invariant for a log-entry snapshot: primary keys unique, the
column-level `unique=True` declarations on `departure_time` and
`arrival_time` (models.py lines 122–123), and the row constraints. -/
def logStoreOk (entries : List LogEntry) : Prop :=
  entries.Pairwise (fun a b => a.id ≠ b.id) ∧
  entries.Pairwise (fun a b => a.departure_time ≠ b.departure_time) ∧
  entries.Pairwise (fun a b => a.arrival_time ≠ b.arrival_time) ∧
  ∀ e ∈ entries, logEntryRowOk e

instance (entries : List LogEntry) : Decidable (logStoreOk entries) := by
  unfold logStoreOk
  exact inferInstance

/-- Aircraft record, the fields of `logbook.models.Aircraft` consumed by the
currency entry point. -/
structure Aircraft where
  id : Nat
  registration : String
  currency_required : Bool
deriving DecidableEq, Repr

/-- The flight sequence handed to the currency evaluator by
`Aircraft.currency_status` (models.py lines 97–99):
`get_ninety_days_currency(LogEntry.objects.filter(aircraft=self)) if self.currency_required else None`.
The evaluator itself lives in `logbook.statistics.currency`, outside the
given sources; its input — the part this embedding captures — is the
queryset filtered by aircraft alone. -/
def currency_status_input (a : Aircraft) (entries : List LogEntry) : Option (List LogEntry) :=
  if a.currency_required then some (entries.filter (fun e => e.aircraft = a.id)) else none

theorem noticeOf_cert (certs : List Certificate) (today : Date) (c : Certificate) :
    (noticeOf certs today c).cert = c := by
  unfold noticeOf
  split <;> rfl

theorem mem_sortCerts {l : List Certificate} {c : Certificate} :
    c ∈ sortCerts l ↔ c ∈ l :=
  (List.perm_insertionSort certR l).mem_iff

theorem supersedes_set_eq_nil_iff (c : Certificate) (certs : List Certificate) :
    supersedes_set c certs = [] ↔ ∀ c' ∈ certs, c'.supersedes ≠ some c.id := by
  unfold supersedes_set
  rw [List.filter_eq_nil_iff]
  simp

theorem mem_of_id_eq {certs : List Certificate} {x c : Certificate}
    (hids : certs.Pairwise (fun a b => a.id ≠ b.id))
    (hx : x ∈ certs) (hc : c ∈ certs) (hid : x.id = c.id) : x = c := by
  by_contra hne
  have hsymm : Symmetric (fun a b : Certificate => a.id ≠ b.id) := by
    intro a b hab h
    exact hab h.symm
  exact hids.forall hsymm hx hc hne hid

/-- C1: for every certificate and every day `today`, `Certificate.valid` is
true iff the certificate is not superseded (no other certificate's
`supersedes` points to it) and its `valid_until` is either absent or at
least `today` (so `valid_until = today` is still valid, and a superseded
certificate is invalid regardless of `valid_until`).  The hypothesis is the
`supersedes_self` check constraint for `c`, which lets "no other
certificate" coincide with the code's count over the whole reverse set. -/
theorem C1_certificate_valid_iff (certs : List Certificate) (c : Certificate) (today : Date)
    (hself : c.supersedes ≠ some c.id) :
    c.valid certs today = true ↔
      ((¬ ∃ c' ∈ certs, c' ≠ c ∧ c'.supersedes = some c.id) ∧
        (c.valid_until = none ∨ ∃ vu, c.valid_until = some vu ∧ dateLe today vu = true)) := by
  unfold Certificate.valid
  rw [Bool.and_eq_true]
  constructor
  · rintro ⟨hdate, hsup⟩
    rw [decide_eq_true_eq, List.length_eq_zero] at hsup
    constructor
    · rintro ⟨c', hc'mem, _, hcs⟩
      have hmem : c' ∈ supersedes_set c certs := by
        unfold supersedes_set
        rw [List.mem_filter]
        exact ⟨hc'mem, by simpa using hcs⟩
      rw [hsup] at hmem
      exact List.not_mem_nil c' hmem
    · cases hvu : c.valid_until with
      | none => exact Or.inl rfl
      | some vu =>
        rw [hvu] at hdate
        exact Or.inr ⟨vu, rfl, hdate⟩
  · rintro ⟨hnosup, hdate⟩
    constructor
    · cases hvu : c.valid_until with
      | none => rfl
      | some vu =>
        rcases hdate with h | ⟨vu', hvu', hle⟩
        · rw [hvu] at h
          exact absurd h (by simp)
        · rw [hvu] at hvu'
          cases hvu'
          exact hle
    · rw [decide_eq_true_eq, List.length_eq_zero, supersedes_set_eq_nil_iff]
      intro c' hc'mem hcs
      by_cases hxc : c' = c
      · subst hxc
        exact hself hcs
      · exact hnosup ⟨c', hc'mem, hxc, hcs⟩

theorem C1_witness :
    ((⟨1, "SPL", ⟨2020, 1, 1⟩, some ⟨2024, 3, 15⟩, none⟩ : Certificate).supersedes ≠
        some (1 : Nat)) ∧
    ((⟨1, "SPL", ⟨2020, 1, 1⟩, some ⟨2024, 3, 15⟩, none⟩ : Certificate).valid
        [⟨1, "SPL", ⟨2020, 1, 1⟩, some ⟨2024, 3, 15⟩, none⟩] ⟨2024, 3, 15⟩ = true ↔
      ((¬ ∃ c' ∈ [(⟨1, "SPL", ⟨2020, 1, 1⟩, some ⟨2024, 3, 15⟩, none⟩ : Certificate)],
          c' ≠ ⟨1, "SPL", ⟨2020, 1, 1⟩, some ⟨2024, 3, 15⟩, none⟩ ∧
          c'.supersedes = some 1) ∧
        ((⟨1, "SPL", ⟨2020, 1, 1⟩, some ⟨2024, 3, 15⟩, none⟩ : Certificate).valid_until = none ∨
          ∃ vu, (⟨1, "SPL", ⟨2020, 1, 1⟩, some ⟨2024, 3, 15⟩, none⟩ : Certificate).valid_until =
              some vu ∧ dateLe ⟨2024, 3, 15⟩ vu = true))) :=
  ⟨by decide,
    C1_certificate_valid_iff [⟨1, "SPL", ⟨2020, 1, 1⟩, some ⟨2024, 3, 15⟩, none⟩]
      ⟨1, "SPL", ⟨2020, 1, 1⟩, some ⟨2024, 3, 15⟩, none⟩ ⟨2024, 3, 15⟩ (by decide)⟩

/-- C4: a certificate whose `supersedes` reference equals its own id is
rejected by the Resolver's input validation with an integrity error — never
a best-effort `CertificateStatus` — and is likewise rejected by the
storage-layer `supersedes_self` check constraint. -/
theorem C4_self_supersession_rejected (c : Certificate) (certs : List Certificate) (today : Date)
    (h : c.supersedes = some c.id) :
    resolve c certs today = .error .integrityError ∧
    (¬ ∃ s : CertificateStatus, resolve c certs today = .ok s) ∧
    ¬ certificateRowOk c := by
  have herr : resolve c certs today = .error .integrityError := by
    unfold resolve
    rw [if_pos h]
  refine ⟨herr, ?_, ?_⟩
  · rintro ⟨s, hs⟩
    rw [herr] at hs
    exact Except.noConfusion hs
  · rintro ⟨_, hne⟩
    exact hne h

theorem C4_witness :
    resolve ⟨7, "FI", ⟨2020, 1, 1⟩, none, some 7⟩ [] ⟨2024, 1, 1⟩ = .error .integrityError ∧
    (¬ ∃ s : CertificateStatus,
      resolve ⟨7, "FI", ⟨2020, 1, 1⟩, none, some 7⟩ [] ⟨2024, 1, 1⟩ = .ok s) ∧
    ¬ certificateRowOk ⟨7, "FI", ⟨2020, 1, 1⟩, none, some 7⟩ :=
  C4_self_supersession_rejected ⟨7, "FI", ⟨2020, 1, 1⟩, none, some 7⟩ [] ⟨2024, 1, 1⟩ rfl

/-- Aircraft and log entries exhibiting two different pilots flying the same
aircraft, for the currency-input claim. -/
def aircraftC5 : Aircraft := ⟨1, "D-0001", true⟩

def entryC5a : LogEntry := ⟨1, 1, 0, 60, 1, .PIC, 1, none, false⟩

def entryC5b : LogEntry := ⟨2, 1, 100, 160, 1, .PIC, 2, none, false⟩

/-- C5 counterexample: `Aircraft.currency_status` hands the currency
evaluator the log entries filtered by aircraft alone, so its input contains
flights of the same aircraft flown by two different pilots. -/
theorem C5_counterexample :
    currency_status_input aircraftC5 [entryC5a, entryC5b] = some [entryC5a, entryC5b] ∧
    entryC5a.pilot ≠ entryC5b.pilot := by
  constructor
  · rfl
  · decide

/-- C5 (amended): the flight sequence consumed by the currency evaluator for
an aircraft with `currency_required` is exactly the log entries of that
aircraft, regardless of pilot — flights of the same aircraft flown by
different pilots are all part of its input. -/
theorem C5_currency_input_is_per_aircraft (a : Aircraft) (entries : List LogEntry)
    (h : a.currency_required = true) :
    ∃ l, currency_status_input a entries = some l ∧
      ∀ e, e ∈ l ↔ (e ∈ entries ∧ e.aircraft = a.id) := by
  refine ⟨entries.filter (fun e => e.aircraft = a.id), ?_, ?_⟩
  · unfold currency_status_input
    rw [if_pos h]
  · intro e
    rw [List.mem_filter]
    simp

theorem C5_witness :
    aircraftC5.currency_required = true ∧
    ∃ l, currency_status_input aircraftC5 [entryC5a, entryC5b] = some l ∧
      ∀ e, e ∈ l ↔ (e ∈ [entryC5a, entryC5b] ∧ e.aircraft = aircraftC5.id) :=
  ⟨rfl, C5_currency_input_is_per_aircraft aircraftC5 [entryC5a, entryC5b] rfl⟩

/-- C9: for a fixed snapshot and fixed `now`/`today`, each evaluator of the
core — certificate validity, the expiry notifier, and the currency entry
point — is a pure function of those inputs: two runs on equal inputs yield
identical output (the embedding's functions have no other inputs and touch
no state). -/
theorem C9_determinism (certs₁ certs₂ : List Certificate) (today₁ today₂ : Date)
    (entries₁ entries₂ : List LogEntry) (a : Aircraft)
    (hc : certs₁ = certs₂) (ht : today₁ = today₂) (he : entries₁ = entries₂) :
    check_certificates_expiry certs₁ today₁ = check_certificates_expiry certs₂ today₂ ∧
    (∀ c : Certificate, c.valid certs₁ today₁ = c.valid certs₂ today₂) ∧
    currency_status_input a entries₁ = currency_status_input a entries₂ := by
  subst hc
  subst ht
  subst he
  exact ⟨rfl, fun _ => rfl, rfl⟩

theorem C9_witness :
    check_certificates_expiry [] ⟨2024, 1, 1⟩ = check_certificates_expiry [] ⟨2024, 1, 1⟩ ∧
    (∀ c : Certificate, c.valid [] ⟨2024, 1, 1⟩ = c.valid [] ⟨2024, 1, 1⟩) ∧
    currency_status_input aircraftC5 [entryC5a] = currency_status_input aircraftC5 [entryC5a] :=
  C9_determinism [] [] ⟨2024, 1, 1⟩ ⟨2024, 1, 1⟩ [entryC5a] [entryC5a] aircraftC5 rfl rfl rfl

/-- C10: in every snapshot satisfying the declared `LogEntry` store
constraints, the `unique=True` columns make `arrival_time` and
`departure_time` globally unique — two distinct entries can share neither
timestamp, across all aircraft and pilots. -/
theorem C10_log_entry_times_unique (entries : List LogEntry) (h : logStoreOk entries) :
    ∀ e₁ ∈ entries, ∀ e₂ ∈ entries, e₁ ≠ e₂ →
      e₁.arrival_time ≠ e₂.arrival_time ∧ e₁.departure_time ≠ e₂.departure_time := by
  obtain ⟨-, hdep, harr, -⟩ := h
  intro e₁ h₁ e₂ h₂ hne
  have hsymm : ∀ f : LogEntry → Int, Symmetric (fun a b : LogEntry => f a ≠ f b) := by
    intro f a b hab h
    exact hab h.symm
  constructor
  · exact harr.forall (hsymm (fun e => e.arrival_time)) h₁ h₂ hne
  · exact hdep.forall (hsymm (fun e => e.departure_time)) h₁ h₂ hne

theorem nodup_of_pairwise_ids {certs : List Certificate}
    (hids : certs.Pairwise (fun a b => a.id ≠ b.id)) : certs.Nodup := by
  refine hids.imp ?_
  intro a b hab heq
  exact hab (congrArg Certificate.id heq)

theorem filter_of_unique {α : Type} (l : List α) (p : α → Bool) (a : α)
    (ha : a ∈ l) (hpa : p a = true) (huniq : ∀ x ∈ l, p x = true → x = a)
    (hnodup : l.Nodup) : l.filter p = [a] := by
  induction l with
  | nil => exact absurd ha (List.not_mem_nil a)
  | cons b t ih =>
    rw [List.nodup_cons] at hnodup
    cases hpb : p b
    · have hat : a ∈ t := by
        rcases List.mem_cons.mp ha with h | h
        · rw [h] at hpa
          rw [hpa] at hpb
          exact absurd hpb (by simp)
        · exact h
      rw [List.filter_cons_of_neg (by simp [hpb])]
      exact ih hat (fun x hx hpx => huniq x (List.mem_cons_of_mem b hx) hpx) hnodup.2
    · have hba : b = a := huniq b (List.mem_cons_self b t) hpb
      rw [List.filter_cons_of_pos hpb, hba]
      have : t.filter p = [] := by
        rw [List.filter_eq_nil_iff]
        intro x hx hpx
        have hxa : x = a := huniq x (List.mem_cons_of_mem b hx) hpx
        rw [hxa, ← hba] at hx
        exact hnodup.1 hx
      rw [this]

theorem expiryEligible_true_iff (today : Date) (certs : List Certificate) (c : Certificate) :
    expiryEligible today certs c = true ↔
      ((∃ vu, c.valid_until = some vu ∧
          dateLe vu (addMonths today EXPIRY_WARNING_THRESHOLD_MONTHS) = true) ∧
        ∀ c' ∈ certs, c'.supersedes ≠ some c.id) := by
  unfold expiryEligible
  rw [Bool.and_eq_true]
  constructor
  · rintro ⟨hdate, hss⟩
    rw [List.isEmpty_iff, supersedes_set_eq_nil_iff] at hss
    refine ⟨?_, hss⟩
    cases hvu : c.valid_until with
    | none =>
      rw [hvu] at hdate
      exact absurd hdate (by simp)
    | some vu =>
      rw [hvu] at hdate
      exact ⟨vu, rfl, hdate⟩
  · rintro ⟨⟨vu, hvu, hle⟩, hns⟩
    constructor
    · rw [hvu]
      exact hle
    · rw [List.isEmpty_iff, supersedes_set_eq_nil_iff]
      exact hns

theorem noticeOf_eval {certs : List Certificate} {today : Date} {c : Certificate} {vu : Date}
    (hvu : c.valid_until = some vu)
    (hns : ∀ c' ∈ certs, c'.supersedes ≠ some c.id) :
    noticeOf certs today c =
      if dateLt vu today = true
      then { cert := c, severity := .error, expiredOn := some vu, daysLeft := none }
      else { cert := c, severity := .warning, expiredOn := none,
             daysLeft := some ((toOrdinal vu : Int) - toOrdinal today) } := by
  have hss : supersedes_set c certs = [] := (supersedes_set_eq_nil_iff c certs).mpr hns
  have hvalid : c.valid certs today = dateLe today vu := by
    unfold Certificate.valid
    rw [hvu, hss]
    simp
  by_cases h : dateLt vu today = true
  · have hd : dateLe today vu = false := (not_dateLe_iff_dateLt today vu).mpr h
    rw [if_pos h]
    unfold noticeOf
    rw [hvalid, hd, if_neg (by simp), hvu]
  · have hd : dateLe today vu = true := by
      cases hq : dateLe today vu
      · exact absurd ((not_dateLe_iff_dateLt today vu).mp hq) h
      · rfl
    rw [if_neg h]
    unfold noticeOf
    rw [hvalid, hd, if_pos rfl, hvu]
    rfl

theorem C10_witness :
    logStoreOk [entryC5a, entryC5b] ∧
    (entryC5a.arrival_time ≠ entryC5b.arrival_time ∧
      entryC5a.departure_time ≠ entryC5b.departure_time) :=
  ⟨by decide,
    C10_log_entry_times_unique [entryC5a, entryC5b] (by decide)
      entryC5a (by simp) entryC5b (by simp) (by decide)⟩

/-- C8: a certificate that some other certificate supersedes generates no
notice from the expiry notifier, and a certificate whose `valid_until` is
absent generates no notice, for every snapshot and every `today`. -/
theorem C8_superseded_or_openended_no_notice (certs : List Certificate) (today : Date)
    (c : Certificate)
    (h : (∃ c' ∈ certs, c'.supersedes = some c.id) ∨ c.valid_until = none) :
    ∀ n ∈ check_certificates_expiry certs today, n.cert ≠ c := by
  intro n hn hceq
  unfold check_certificates_expiry at hn
  rw [List.mem_map] at hn
  obtain ⟨c', hc'mem, hfc⟩ := hn
  rw [← hfc, noticeOf_cert] at hceq
  subst hceq
  rw [mem_sortCerts, List.mem_filter] at hc'mem
  obtain ⟨hmem, helig⟩ := hc'mem
  rw [expiryEligible_true_iff] at helig
  obtain ⟨⟨vu, hvu, -⟩, hns⟩ := helig
  rcases h with ⟨x, hxm, hxs⟩ | hnone
  · exact hns x hxm hxs
  · rw [hnone] at hvu
    exact Option.noConfusion hvu

/-- Certificates for the notifier witnesses: `certC8new` supersedes
`certC8old`; `certC8open` has no expiry date. -/
def certC8old : Certificate := ⟨81, "Old licence", ⟨2019, 1, 1⟩, some ⟨2020, 1, 1⟩, none⟩

def certC8new : Certificate := ⟨82, "New licence", ⟨2020, 1, 1⟩, some ⟨2024, 2, 1⟩, some 81⟩

def certC8open : Certificate := ⟨83, "Open", ⟨2020, 1, 1⟩, none, none⟩

theorem C8_witness :
    ((∃ c' ∈ [certC8old, certC8new, certC8open], c'.supersedes = some certC8old.id) ∨
      certC8old.valid_until = none) ∧
    (∀ n ∈ check_certificates_expiry [certC8old, certC8new, certC8open] ⟨2024, 1, 1⟩,
      n.cert ≠ certC8old) ∧
    (∀ n ∈ check_certificates_expiry [certC8old, certC8new, certC8open] ⟨2024, 1, 1⟩,
      n.cert ≠ certC8open) :=
  ⟨Or.inl ⟨certC8new, by decide, by decide⟩,
    C8_superseded_or_openended_no_notice [certC8old, certC8new, certC8open] ⟨2024, 1, 1⟩
      certC8old (Or.inl ⟨certC8new, by decide, by decide⟩),
    C8_superseded_or_openended_no_notice [certC8old, certC8new, certC8open] ⟨2024, 1, 1⟩
      certC8open (Or.inr rfl)⟩

/-- Certificate showing the notifier's horizon exceeds 90 days. -/
def certC6 : Certificate := ⟨60, "Medical", ⟨2020, 1, 1⟩, some ⟨2024, 4, 1⟩, none⟩

/-- C6 counterexample: with `today = 2024-01-01`, a non-superseded
certificate expiring 2024-04-01 — 91 days away — still receives a warning
notice, because the code's horizon is `relativedelta(months=3)`, not 90
days; a 90-day horizon would emit nothing for it. -/
theorem C6_counterexample :
    check_certificates_expiry [certC6] ⟨2024, 1, 1⟩ =
      [{ cert := certC6, severity := .warning, expiredOn := none, daysLeft := some 91 }] ∧
    toOrdinal ⟨2024, 4, 1⟩ = toOrdinal ⟨2024, 1, 1⟩ + 91 := by
  constructor
  · rfl
  · decide

/-- C6 (amended): the expiry notifier's warning horizon is three calendar
months (`EXPIRY_WARNING_THRESHOLD = relativedelta(months=3)`, a module-level
constant the notifier reads rather than a passed-in parameter): a
certificate receives a notice exactly when it is in the snapshot, is not
superseded, and has a `valid_until` of at most `today` plus three calendar
months. -/
theorem C6_horizon_is_three_calendar_months (certs : List Certificate) (today : Date)
    (c : Certificate) :
    (∃ n ∈ check_certificates_expiry certs today, n.cert = c) ↔
      (c ∈ certs ∧
        (∃ vu, c.valid_until = some vu ∧
          dateLe vu (addMonths today EXPIRY_WARNING_THRESHOLD_MONTHS) = true) ∧
        ∀ c' ∈ certs, c'.supersedes ≠ some c.id) := by
  unfold check_certificates_expiry
  constructor
  · rintro ⟨n, hn, hceq⟩
    rw [List.mem_map] at hn
    obtain ⟨c', hc'mem, hfc⟩ := hn
    rw [← hfc, noticeOf_cert] at hceq
    subst hceq
    rw [mem_sortCerts, List.mem_filter] at hc'mem
    obtain ⟨hmem, helig⟩ := hc'mem
    rw [expiryEligible_true_iff] at helig
    exact ⟨hmem, helig.1, helig.2⟩
  · rintro ⟨hmem, hvu, hns⟩
    refine ⟨noticeOf certs today c, ?_, noticeOf_cert _ _ _⟩
    rw [List.mem_map]
    refine ⟨c, ?_, rfl⟩
    rw [mem_sortCerts, List.mem_filter]
    exact ⟨hmem, (expiryEligible_true_iff today certs c).mpr ⟨hvu, hns⟩⟩

/-- Ordering property the specification claims for the notifier output,
stated from the spec's words for comparison with the code's behaviour: no
warning-severity notice precedes an error-severity notice, and notices of
equal severity appear in ascending `validUntil` order. -/
def specClaimedNoticeOrder (l : List Notice) : Prop :=
  List.Pairwise (fun a b =>
    ¬(a.severity = .warning ∧ b.severity = .error) ∧
    (a.severity = b.severity →
      validUntilDescLe b.cert.valid_until a.cert.valid_until = true)) l

instance (l : List Notice) : Decidable (specClaimedNoticeOrder l) := by
  unfold specClaimedNoticeOrder
  exact inferInstance

/-- Certificates for the notifier-ordering counterexample: all
non-superseded; two future expiries and one past expiry, with names whose
alphabetical order runs against both claimed orderings. -/
def certC7a : Certificate := ⟨71, "Alpha", ⟨2020, 1, 1⟩, some ⟨2024, 3, 20⟩, none⟩

def certC7b : Certificate := ⟨72, "Beta", ⟨2020, 1, 1⟩, some ⟨2024, 3, 18⟩, none⟩

def certC7c : Certificate := ⟨73, "Gamma", ⟨2020, 1, 1⟩, some ⟨2024, 3, 10⟩, none⟩

/-- The notifier output on the ordering counterexample snapshot. -/
def noticesC7 : List Notice :=
  check_certificates_expiry [certC7a, certC7b, certC7c] ⟨2024, 3, 15⟩

/-- C7 counterexample: the notifier iterates certificates in
`Certificate.Meta.ordering` (name first), so an error notice (expired
"Gamma") comes after warning notices, and the two warnings appear with
descending `validUntil` (2024-03-20 before 2024-03-18) — both claimed
ordering properties fail on the same concrete input. -/
theorem C7_counterexample :
    ¬ specClaimedNoticeOrder noticesC7 ∧
    noticesC7.map (fun n => n.severity) = [.warning, .warning, .error] ∧
    noticesC7.map (fun n => n.cert.valid_until) =
      [some ⟨2024, 3, 20⟩, some ⟨2024, 3, 18⟩, some ⟨2024, 3, 10⟩] := by
  refine ⟨?_, rfl, rfl⟩
  decide

/-- C7 (amended): the notifier's notices appear in the default certificate
queryset order — name ascending, then `supersedes` descending with nulls
last, then `valid_until` descending — with each certificate's severity
computed individually, so error and warning notices interleave instead of
grouping by severity. -/
theorem C7_output_in_queryset_order (certs : List Certificate) (today : Date) :
    List.Pairwise (fun a b : Notice => certLe a.cert b.cert = true)
      (check_certificates_expiry certs today) := by
  unfold check_certificates_expiry
  rw [List.pairwise_map]
  have hs : List.Sorted certR (sortCerts (certs.filter (expiryEligible today certs))) :=
    List.sorted_insertionSort certR _
  refine hs.imp ?_
  intro a b h
  rw [noticeOf_cert, noticeOf_cert]
  exact h

/-- C2: every certificate in the snapshot that is not superseded and whose
`valid_until` is present and within the notifier's horizon receives exactly
one notice: an error notice carrying its expiry date when it is already
expired (`valid_until < today`), and otherwise a warning notice carrying the
number of days until expiry (`valid_until − today`). -/
theorem C2_exactly_one_notice (certs : List Certificate) (today : Date)
    (c : Certificate) (vu : Date)
    (hids : certs.Pairwise (fun a b => a.id ≠ b.id))
    (hmem : c ∈ certs)
    (hvu : c.valid_until = some vu)
    (hns : ∀ c' ∈ certs, c'.supersedes ≠ some c.id)
    (hcut : dateLe vu (addMonths today EXPIRY_WARNING_THRESHOLD_MONTHS) = true) :
    (check_certificates_expiry certs today).filter (fun n => n.cert.id = c.id) =
      [if dateLt vu today = true
        then { cert := c, severity := .error, expiredOn := some vu, daysLeft := none }
        else { cert := c, severity := .warning, expiredOn := none,
               daysLeft := some ((toOrdinal vu : Int) - toOrdinal today) }] := by
  unfold check_certificates_expiry
  rw [List.filter_map]
  have hfun : ((fun n : Notice => decide (n.cert.id = c.id)) ∘ noticeOf certs today) =
      fun x : Certificate => decide (x.id = c.id) := by
    funext x
    simp [noticeOf_cert]
  rw [hfun]
  have helig : expiryEligible today certs c = true :=
    (expiryEligible_true_iff today certs c).mpr ⟨⟨vu, hvu, hcut⟩, hns⟩
  have hsingle :
      (sortCerts (certs.filter (expiryEligible today certs))).filter
        (fun x : Certificate => decide (x.id = c.id)) = [c] := by
    apply filter_of_unique
    · rw [mem_sortCerts, List.mem_filter]
      exact ⟨hmem, helig⟩
    · simp
    · intro x hx hpx
      rw [mem_sortCerts, List.mem_filter] at hx
      exact mem_of_id_eq hids hx.1 hmem (by simpa using hpx)
    · exact ((List.perm_insertionSort certR _).nodup_iff).mpr
        ((nodup_of_pairwise_ids hids).filter _)
  rw [hsingle, List.map_singleton, noticeOf_eval hvu hns]

/-- Certificates for the C2 witness: one expired, one expiring soon, both
non-superseded. -/
def certC2w : Certificate := ⟨21, "SEP rating", ⟨2022, 4, 1⟩, some ⟨2024, 2, 1⟩, none⟩

def certC2e : Certificate := ⟨22, "Class 2 medical", ⟨2021, 1, 1⟩, some ⟨2023, 12, 1⟩, none⟩

theorem C2_witness :
    (check_certificates_expiry [certC2w, certC2e] ⟨2024, 1, 1⟩).filter
        (fun n => n.cert.id = certC2w.id) =
      [if dateLt ⟨2024, 2, 1⟩ ⟨2024, 1, 1⟩ = true
        then { cert := certC2w, severity := .error, expiredOn := some ⟨2024, 2, 1⟩,
               daysLeft := none }
        else { cert := certC2w, severity := .warning, expiredOn := none,
               daysLeft := some ((toOrdinal ⟨2024, 2, 1⟩ : Int) - toOrdinal ⟨2024, 1, 1⟩) }] :=
  C2_exactly_one_notice [certC2w, certC2e] ⟨2024, 1, 1⟩ certC2w ⟨2024, 2, 1⟩
    (by decide) (by decide) rfl (by decide) (by decide)

theorem iterSuperseded_add (certs : List Certificate) (a b : Nat) (c : Certificate) :
    iterSuperseded certs (a + b) c =
      (iterSuperseded certs a c).bind (iterSuperseded certs b) := by
  induction a generalizing c with
  | zero => simp [iterSuperseded]
  | succ n ih =>
    have he : n + 1 + b = (n + b) + 1 := by omega
    rw [he]
    cases hs : superseded_by c certs with
    | none => simp [iterSuperseded, hs]
    | some c' => simp [iterSuperseded, hs, ih c']

theorem iterSuperseded_cycle_isSome (certs : List Certificate) (c : Certificate) (k : Nat)
    (hk : 0 < k) (hc : iterSuperseded certs k c = some c) :
    ∀ n, (iterSuperseded certs n c).isSome = true := by
  have hmul : ∀ q, iterSuperseded certs (q * k) c = some c := by
    intro q
    induction q with
    | zero => simp [iterSuperseded]
    | succ m ih =>
      have he : (m + 1) * k = m * k + k := by ring
      rw [he, iterSuperseded_add, ih]
      simpa using hc
  intro n
  cases hq : iterSuperseded certs n c with
  | some x => rfl
  | none =>
    exfalso
    have hle : n ≤ n * k := Nat.le_mul_of_pos_right n hk
    have hnk := hmul n
    rw [(by omega : n * k = n + (n * k - n)), iterSuperseded_add, hq] at hnk
    exact Option.noConfusion hnk

theorem chainHeadAux_error_of_all_isSome (certs : List Certificate) (fuel : Nat)
    (c : Certificate) (h : ∀ n, (iterSuperseded certs n c).isSome = true) :
    chainHeadAux certs fuel c = .error .integrityError := by
  induction fuel generalizing c with
  | zero => rfl
  | succ m ih =>
    cases hs : superseded_by c certs with
    | none =>
      have h1 := h 1
      have he : iterSuperseded certs 1 c = none := by
        simp [iterSuperseded, hs]
      rw [he] at h1
      exact absurd h1 (by simp)
    | some c' =>
      have hnext : ∀ n, (iterSuperseded certs n c').isSome = true := by
        intro n
        have hn := h (n + 1)
        rw [(by omega : n + 1 = 1 + n), iterSuperseded_add] at hn
        have h1 : iterSuperseded certs 1 c = some c' := by
          simp [iterSuperseded, hs]
        rw [h1] at hn
        simpa using hn
      simp only [chainHeadAux, hs]
      exact ih c' hnext

theorem chainHeadAux_ok_bound (certs : List Certificate) (fuel : Nat) (c h : Certificate)
    (hok : chainHeadAux certs fuel c = .ok h) :
    ∃ n, n ≤ fuel ∧ iterSuperseded certs n c = some h ∧
      superseded_by h certs = none := by
  induction fuel generalizing c with
  | zero =>
    rw [show chainHeadAux certs 0 c = Except.error ResolveError.integrityError from rfl] at hok
    exact Except.noConfusion hok
  | succ m ih =>
    cases hs : superseded_by c certs with
    | none =>
      have hstep : chainHeadAux certs (m + 1) c = .ok c := by
        simp [chainHeadAux, hs]
      rw [hstep, Except.ok.injEq] at hok
      subst hok
      exact ⟨0, Nat.zero_le _, rfl, hs⟩
    | some c' =>
      have hstep : chainHeadAux certs (m + 1) c = chainHeadAux certs m c' := by
        simp [chainHeadAux, hs]
      rw [hstep] at hok
      obtain ⟨n, hn, hiter, hhead⟩ := ih c' hok
      refine ⟨n + 1, by omega, ?_, hhead⟩
      rw [(by omega : n + 1 = 1 + n), iterSuperseded_add]
      have h1 : iterSuperseded certs 1 c = some c' := by
        simp [iterSuperseded, hs]
      rw [h1]
      simpa using hiter

/-- C3: resolving the active chain head by following `superseded_by` links —
for every certificate set, including one containing a supersession cycle —
terminates within at most N steps, N the total certificate count: a
successful resolution reaches a certificate with no further superseder in at
most N link steps, and whenever the start certificate lies on a cycle the
Resolver returns an integrity error instead of looping forever. -/
theorem C3_chain_head_resolution (certs : List Certificate) (c : Certificate) :
    (∀ h, resolveChainHead certs c = .ok h →
      ∃ n, n ≤ certs.length ∧ iterSuperseded certs n c = some h ∧
        superseded_by h certs = none) ∧
    ((∃ k, 0 < k ∧ iterSuperseded certs k c = some c) →
      resolveChainHead certs c = .error .integrityError) := by
  constructor
  · intro h hok
    exact chainHeadAux_ok_bound certs certs.length c h hok
  · rintro ⟨k, hk, hc⟩
    exact chainHeadAux_error_of_all_isSome certs certs.length c
      (iterSuperseded_cycle_isSome certs c k hk hc)

/-- Certificates for the chain-head witness: a three-link renewal chain
(`certChainC` supersedes `certChainB`, which supersedes `certChainA`) and a
synthetic two-certificate supersession cycle. -/
def certChainA : Certificate := ⟨1, "Licence", ⟨2020, 1, 1⟩, some ⟨2021, 1, 1⟩, none⟩

def certChainB : Certificate := ⟨2, "Licence", ⟨2021, 1, 1⟩, some ⟨2022, 1, 1⟩, some 1⟩

def certChainC : Certificate := ⟨3, "Licence", ⟨2022, 1, 1⟩, none, some 2⟩

def certCycleA : Certificate := ⟨4, "Loop A", ⟨2020, 1, 1⟩, none, some 5⟩

def certCycleB : Certificate := ⟨5, "Loop B", ⟨2020, 1, 1⟩, none, some 4⟩

theorem C3_witness :
    (∃ n, n ≤ ([certChainA, certChainB, certChainC] : List Certificate).length ∧
      iterSuperseded [certChainA, certChainB, certChainC] n certChainA = some certChainC ∧
      superseded_by certChainC [certChainA, certChainB, certChainC] = none) ∧
    resolveChainHead [certCycleA, certCycleB] certCycleA = .error .integrityError :=
  ⟨(C3_chain_head_resolution [certChainA, certChainB, certChainC] certChainA).1 certChainC rfl,
    (C3_chain_head_resolution [certCycleA, certCycleB] certCycleA).2
      ⟨2, by decide, by decide⟩⟩
